import Mathlib

/-!
Verification of the Block-STM parallel block executor
(`aptos-move/block-executor/src/executor.rs`).

The executor code under `src/` is embedded shallowly below.  The collaborating
crates (`scheduler.rs`, `aptos_mvhashmap`, `txn_last_input_output.rs`,
`view.rs`, `task.rs`) are not part of the provided sources; the pieces of them
that the properties need are modelled from the specification and marked
`Modelled from the spec:` in their doc comments.
-/

namespace BlockSTM

/-- ExecutionStatus of one transaction attempt (`task.rs`, spec section 6):
Success, SkipRest (skip the rest of the block) or Abort with a user error. -/
inductive ExecutionStatus (O E : Type) where
  | Success (out : O)
  | SkipRest (out : O)
  | Abort (err : E)
deriving DecidableEq

/-- Block-level error taxonomy (`errors.rs`, spec section 7): a user abort
propagated unchanged, or the module read/write race signal. -/
inductive Error (E : Type) where
  | UserError (e : E)
  | ModulePathReadWrite
deriving DecidableEq

/-- Modelled from the spec: the `TransactionOutput` collaborator (spec
section 6) exposes `get_writes()`, `get_deltas()` and `gas_used()`. -/
structure TxnOutput (K V D : Type) where
  writes : List (K × V)
  deltas : List (K × D)
  gas_used : Nat
deriving DecidableEq

/-- Outcome of `execute_transactions_sequential`: the Rust function either
panics on the delta assertion, returns `Err` or returns the output vector. -/
inductive SeqOutcome (O E : Type) where
  | panicDeltas
  | err (e : Error E)
  | ok (outs : List O)
deriving DecidableEq

/-- Adapter from a sequential outcome to the `Result` shape of the parallel
path (`none` marks the panic, which has no `Result` counterpart). -/
def SeqOutcome.toExcept {O E : Type} : SeqOutcome O E → Option (Except (Error E) (List O))
  | .panicDeltas => none
  | .err e => some (.error e)
  | .ok outs => some (.ok outs)

/-- `Vec::resize_with(n, filler)`: grow with filler elements up to length `n`
(or truncate when already longer). -/
def resize_with {O : Type} (l : List O) (n : Nat) (filler : O) : List O :=
  if n ≤ l.length then l.take n else l ++ List.replicate (n - l.length) filler

theorem resize_with_length {O : Type} (l : List O) (n : Nat) (filler : O) :
    (resize_with l n filler).length = n := by
  unfold resize_with
  split
  · simp
    omega
  · simp
    omega

theorem resize_with_decomp {O : Type} (l : List O) (n : Nat) (filler : O) :
    ∃ realOuts padLen,
      resize_with l n filler = realOuts ++ List.replicate padLen filler
        ∧ ∀ o ∈ realOuts, o ∈ l := by
  unfold resize_with
  split
  · exact ⟨l.take n, 0, by simp, fun o ho => List.mem_of_mem_take ho⟩
  · exact ⟨l, n - l.length, rfl, fun _ ho => ho⟩

theorem resize_with_singleton {O : Type} (o filler : O) (n : Nat) :
    resize_with [o] (n + 1) filler = o :: List.replicate n filler := by
  cases n with
  | zero => rfl
  | succ k =>
    unfold resize_with
    rw [if_neg (by simp)]
    simp

section Exec

variable {K V D T E : Type} [DecidableEq K]

/-- The user-supplied executor (`ExecutorTask::execute_transaction`, spec
section 6): a function of the read view, the transaction, its index and the
`materialize_deltas` flag. -/
abbrev Exec (K V D T E : Type) :=
  (K → Option V) → T → Nat → Bool → ExecutionStatus (TxnOutput K V D) E

/-- Point update of a key/value map (`BTreeMap::insert`). -/
def upd (m : K → Option V) (k : K) (v : V) : K → Option V :=
  fun k2 => if k2 = k then some v else m k2

/-- Apply a write list left to right (`for (ap, write_op) in get_writes()`,
later writes to the same key overwrite earlier ones). -/
def applyWritesMap (m : K → Option V) (ws : List (K × V)) : K → Option V :=
  ws.foldl (fun mm kv => upd mm kv.1 kv.2) m

/-- Modelled from the spec: the view handed to the executor reads the
accumulated map first and falls back to base state (spec section 4.2 step 4;
`LatestView` lives in `view.rs`, outside the provided sources). -/
def overlay (base m : K → Option V) : K → Option V :=
  fun k => match m k with
  | some v => some v
  | none => base k

/-- The loop body of `execute_transactions_sequential` (executor.rs lines
393 to 426): execute each transaction at flag `true` against the data map,
assert it produced no deltas, apply its writes, stop at SkipRest, return the
wrapped user error at Abort.  (The SkipRest branch also inserts its writes in
the source; the map is dead at that point so the insertion is dropped.) -/
def seqGo (exec : Exec K V D T E) (base : K → Option V) :
    List T → Nat → (K → Option V) → List (TxnOutput K V D) →
      SeqOutcome (TxnOutput K V D) E
  | [], _, _, acc => .ok acc.reverse
  | txn :: rest, idx, m, acc =>
    match exec (overlay base m) txn idx true with
    | .Success out =>
      if out.deltas.length = 0 then
        seqGo exec base rest (idx + 1) (applyWritesMap m out.writes) (out :: acc)
      else .panicDeltas
    | .SkipRest out =>
      if out.deltas.length = 0 then .ok ((out :: acc).reverse) else .panicDeltas
    | .Abort e => .err (.UserError e)

/-- `execute_transactions_sequential` (executor.rs lines 383 to 430): run the
loop from an empty data map, then `ret.resize_with(num_txns, skip_output)`. -/
def execute_transactions_sequential (exec : Exec K V D T E) (base : K → Option V)
    (block : List T) (skipOut : TxnOutput K V D) : SeqOutcome (TxnOutput K V D) E :=
  match seqGo exec base block 0 (fun _ => none) [] with
  | .ok outs => .ok (resize_with outs block.length skipOut)
  | r => r

end Exec

section Extract

variable {K V D E O : Type}

/-- The status stored by `execute` in the last-input/output table: a user
abort is recorded as `Abort(Error::UserError(err))` (executor.rs line 117). -/
def recordStatus : ExecutionStatus O E → ExecutionStatus O (Error E)
  | .Success o => .Success o
  | .SkipRest o => .SkipRest o
  | .Abort e => .Abort (.UserError e)

/-- The output-extraction loop of `execute_transactions_parallel`
(executor.rs lines 348 to 362): walk recorded statuses in index order,
pushing Success outputs, stopping after a SkipRest output, and turning the
first recorded Abort into the block error. -/
def takeOutputs (statusAt : Nat → ExecutionStatus O (Error E)) :
    Nat → Nat → List O → Except (Error E) (List O)
  | 0, _, acc => .ok acc.reverse
  | n + 1, idx, acc =>
    match statusAt idx with
    | .Success t => takeOutputs statusAt n (idx + 1) (t :: acc)
    | .SkipRest t => .ok ((t :: acc).reverse)
    | .Abort err => .error err

/-- `execute_transactions_parallel` after the worker scope (executor.rs lines
307 to 381), as a function of what the run recorded: the `concurrency_level >
1` assertion (line 313, `none` marks the panic), the module-race check of
`last_input_output.module_publishing_may_race()` (line 344), the extraction
loop bounded by `scheduler.commit_idx()` (line 341), and
`final_results.resize_with(num_txns, skip_output)` (line 374). -/
def execute_transactions_parallel (concurrency_level : Nat)
    (statusAt : Nat → ExecutionStatus O (Error E)) (commitIdx : Nat)
    (mayRace : Bool) (skipOut : O) : Option (Except (Error E) (List O)) :=
  if 1 < concurrency_level then
    some (if mayRace then .error .ModulePathReadWrite
      else match takeOutputs statusAt commitIdx 0 [] with
        | .ok outs => .ok (resize_with outs commitIdx skipOut)
        | .error e => .error e)
  else none

end Extract

/-- `BlockExecutor` (executor.rs lines 27 to 32) holds the concurrency
level. -/
structure BlockExecutor where
  concurrency_level : Nat
deriving DecidableEq

/-- `BlockExecutor::new` (executor.rs lines 42 to 52): asserts
`concurrency_level > 0 && concurrency_level <= num_cpus::get()`; `none` marks
the panic.  The cpu count is a parameter of the model. -/
def BlockExecutor.new (concurrency_level numCpus : Nat) : Option BlockExecutor :=
  if 0 < concurrency_level ∧ concurrency_level ≤ numCpus then
    some ⟨concurrency_level⟩
  else none

section Validate

variable {K V D : Type} [DecidableEq V] [DecidableEq D]

/-- Modelled from the spec: the kinds of a read record (spec sections 3 and
4.2): `Version`, `Resolved`, `Unresolved`, `Storage`, plus the
`DeltaApplicationFailure` record of section 4.2 step 5.  The record lives in
`txn_last_input_output.rs`, outside the provided sources. -/
inductive ReadKind (V D : Type) where
  | Version (version : Nat × Nat)
  | Resolved (value : V)
  | Unresolved (d : D)
  | Storage
  | DeltaApplicationFailure
deriving DecidableEq

/-- Modelled from the spec: a read record holds the key it read (`r.path()`)
and the kind of what it observed. -/
structure ReadDescriptor (K V D : Type) where
  path : K
  kind : ReadKind V D
deriving DecidableEq

/-- `MVHashMapOutput` (`aptos_mvhashmap`): a successful re-read is either a
versioned write or a delta-resolved value. -/
inductive MVOut (V : Type) where
  | Version (version : Nat × Nat) (value : V)
  | Resolved (value : V)
deriving DecidableEq

/-- `MVHashMapError` (`aptos_mvhashmap`): the error side of a read. -/
inductive MVErr (D : Type) where
  | Dependency (idx : Nat)
  | Unresolved (d : D)
  | NotFound
  | DeltaApplicationFailure
deriving DecidableEq

/-- Result type of `versioned_data_cache.read`. -/
abbrev ReadRes (V D : Type) := Except (MVErr D) (MVOut V)

/-- Modelled from the spec: `r.validate_version(version)` holds iff the
record was `Version(v')` with `v' = version` (spec section 4.4 table). -/
def ReadDescriptor.validate_version (r : ReadDescriptor K V D) (version : Nat × Nat) : Bool :=
  match r.kind with
  | .Version v2 => decide (version = v2)
  | _ => false

/-- Modelled from the spec: `r.validate_resolved(value)` holds iff the record
was `Resolved(val')` with `val' = value` (spec section 4.4 table). -/
def ReadDescriptor.validate_resolved (r : ReadDescriptor K V D) (value : V) : Bool :=
  match r.kind with
  | .Resolved v2 => decide (value = v2)
  | _ => false

/-- Modelled from the spec: `r.validate_unresolved(delta)` holds iff the
record was `Unresolved(d')` with `d' = delta` (spec section 4.4 table). -/
def ReadDescriptor.validate_unresolved (r : ReadDescriptor K V D) (d : D) : Bool :=
  match r.kind with
  | .Unresolved d2 => decide (d = d2)
  | _ => false

/-- Modelled from the spec: `r.validate_storage()` holds iff the record was a
`Storage` (base state) read (spec section 4.4 table). -/
def ReadDescriptor.validate_storage (r : ReadDescriptor K V D) : Bool :=
  match r.kind with
  | .Storage => true
  | _ => false

/-- Modelled from the spec: `r.validate_delta_application_failure()` holds
iff the record itself was a delta application failure (spec section 9, open
question: repeated failure passes validation on purpose). -/
def ReadDescriptor.validate_delta_application_failure (r : ReadDescriptor K V D) : Bool :=
  match r.kind with
  | .DeltaApplicationFailure => true
  | _ => false

/-- The per-record body of `validate` (executor.rs lines 157 to 171): judge
one read record against the result of re-reading its key from the
multi-version data structure at the validated index. -/
def validateRead (r : ReadDescriptor K V D) : ReadRes V D → Bool
  | .ok (.Version version _) => r.validate_version version
  | .ok (.Resolved value) => r.validate_resolved value
  | .error (.Dependency _) => false
  | .error (.Unresolved d) => r.validate_unresolved d
  | .error .NotFound => r.validate_storage
  | .error .DeltaApplicationFailure => r.validate_delta_application_failure

/-- `validate` (executor.rs lines 141 to 172): a read set is valid when every
record passes `validateRead` against its re-read; `read` stands for
`versioned_data_cache.read(r.path(), idx_to_validate)`. -/
def validate (readSet : List (ReadDescriptor K V D)) (read : K → ReadRes V D) : Bool :=
  readSet.all fun r => validateRead r (read r.path)

end Validate

section MVDS

variable {K V D T E : Type} [DecidableEq K]

/-- Modelled from the spec: a cell of the multi-version data store at one
(key, TxnIndex) slot: a versioned write, a delta or an estimate marker (spec
section 3, MVDS entry). -/
inductive Cell (V D : Type) where
  | Write (version : Nat × Nat) (value : V)
  | Delta (d : D)
  | Estimate
deriving DecidableEq

/-- Modelled from the spec: the multi-version data store, at most one cell
per (key, TxnIndex) (spec section 3 invariant). -/
def MVMap (K V D : Type) := K → Nat → Option (Cell V D)

/-- Modelled from the spec: `MVDS.add_write(key, (idx, incarnation), value)`
inserts or replaces the cell at (key, idx) (spec section 4.1). -/
def add_write (m : MVMap K V D) (k : K) (version : Nat × Nat) (v : V) : MVMap K V D :=
  fun k2 i => if k2 = k ∧ i = version.1 then some (.Write version v) else m k2 i

/-- Modelled from the spec: `MVDS.add_delta(key, idx, delta)` inserts a delta
cell at (key, idx) (spec section 4.1). -/
def add_delta (m : MVMap K V D) (k : K) (idx : Nat) (d : D) : MVMap K V D :=
  fun k2 i => if k2 = k ∧ i = idx then some (.Delta d) else m k2 i

/-- Modelled from the spec: `MVDS.delete(key, idx)` removes the cell at
(key, idx) (spec section 4.1). -/
def delete (m : MVMap K V D) (k : K) (idx : Nat) : MVMap K V D :=
  fun k2 i => if k2 = k ∧ i = idx then none else m k2 i

/-- The scheduler state visible to `execute`: `commit_idx` and the sticky
halt flag (`scheduler.rs` is not under the provided sources; spec section
4.3). -/
structure SchedState where
  commit_idx : Nat
  halted : Bool
deriving DecidableEq

/-- The scheduler task value returned by `execute` — either `NoTask` or the
result of `scheduler.finish_execution(idx, incarnation, updates_outside,
guard)`, kept symbolic since the scheduler is outside the provided
sources. -/
inductive StepTask where
  | NoTask
  | FinishExecution (idx incarnation : Nat) (updates_outside : Bool)
deriving DecidableEq

/-- The last-input/output record stored by `execute`: the captured read set
and the recorded status (spec section 3, txn last-input/output table). -/
structure TxnRecord (K V D E : Type) where
  reads : List (ReadDescriptor K V D)
  status : ExecutionStatus (TxnOutput K V D) (Error E)
deriving DecidableEq

/-- Everything `execute` leaves behind: the updated data store, the stored
record, the scheduler state and the returned task. -/
structure StepResult (K V D E : Type) where
  cache : MVMap K V D
  record : TxnRecord K V D E
  sched : SchedState
  updates_outside : Bool
  task : StepTask

/-- One write application inside `apply_updates` (executor.rs lines 83 to
89): `updates_outside` is raised when the key was not in the previous
write/delta set, the key is removed from that set, and the cell is published
at `(idx, incarnation)`. -/
def applyWriteUpd (idx incarnation : Nat) (st : List K × Bool × MVMap K V D)
    (kv : K × V) : List K × Bool × MVMap K V D :=
  (st.1.erase kv.1, st.2.1 || !(decide (kv.1 ∈ st.1)),
    add_write st.2.2 kv.1 (idx, incarnation) kv.2)

/-- One delta application inside `apply_updates` (executor.rs lines 92 to
97): like a write but the delta cell is published at `idx` alone. -/
def applyDeltaUpd (idx : Nat) (st : List K × Bool × MVMap K V D)
    (kd : K × D) : List K × Bool × MVMap K V D :=
  (st.1.erase kd.1, st.2.1 || !(decide (kd.1 ∈ st.1)),
    add_delta st.2.2 kd.1 idx kd.2)

/-- The tail of `execute` (executor.rs lines 121 to 138): delete the entries
of the previous write/delta set that were not overwritten, record the read
set and the result; on a detected module read/write race set `commit_idx` to
0 and halt, returning `NoTask`, otherwise return
`scheduler.finish_execution(idx, incarnation, updates_outside, guard)`. -/
def finishStep (idx incarnation : Nat) (reads : List (ReadDescriptor K V D))
    (result : ExecutionStatus (TxnOutput K V D) (Error E))
    (prevRemaining : List K) (updates_outside : Bool) (m1 : MVMap K V D)
    (race : Bool) (sched : SchedState) : StepResult K V D E :=
  let m2 := prevRemaining.foldl (fun mm k => delete mm k idx) m1
  if race then
    { cache := m2, record := ⟨reads, result⟩, sched := ⟨0, true⟩,
      updates_outside := updates_outside, task := .NoTask }
  else
    { cache := m2, record := ⟨reads, result⟩, sched := sched,
      updates_outside := updates_outside,
      task := .FinishExecution idx incarnation updates_outside }

/-- `execute` (executor.rs lines 54 to 139).  Inputs outside the provided
sources are parameters: `view` is the speculative view, `reads` stands for
`speculative_view.take_reads()`, `prevModifiedKeys` for
`last_input_output.modified_keys(idx)`, and `race` for the module read/write
race detected by `last_input_output.record` (spec section 4.4 step 6).  The
executor is invoked at `materialize_deltas = false` (line 75); Success and
SkipRest publish writes and deltas, Abort publishes nothing and is recorded
as `Abort(Error::UserError(err))`; keys of the previous write/delta set that
were not overwritten are deleted; a detected race sets `commit_idx` to 0,
halts the scheduler and returns `NoTask`. -/
def executeStep (exec : Exec K V D T E) (view : K → Option V) (txn : T)
    (idx incarnation : Nat) (prevModifiedKeys : List K)
    (reads : List (ReadDescriptor K V D)) (race : Bool)
    (m : MVMap K V D) (sched : SchedState) : StepResult K V D E :=
  match exec view txn idx false with
  | .Success out =>
    let st := out.deltas.foldl (applyDeltaUpd idx)
      (out.writes.foldl (applyWriteUpd idx incarnation) (prevModifiedKeys, false, m))
    finishStep idx incarnation reads (.Success out) st.1 st.2.1 st.2.2 race sched
  | .SkipRest out =>
    let st := out.deltas.foldl (applyDeltaUpd idx)
      (out.writes.foldl (applyWriteUpd idx incarnation) (prevModifiedKeys, false, m))
    finishStep idx incarnation reads (.SkipRest out) st.1 st.2.1 st.2.2 race sched
  | .Abort err =>
    finishStep idx incarnation reads (.Abort (.UserError err)) prevModifiedKeys false m
      race sched

/-- Folding `delete` over a key list empties exactly the (key, idx) slots of
that list and leaves every other slot unchanged. -/
theorem foldl_delete (idx : Nat) :
    ∀ (l : List K) (m : MVMap K V D) (k : K) (i : Nat),
    (l.foldl (fun mm k2 => delete mm k2 idx) m) k i
      = if i = idx ∧ k ∈ l then none else m k i := by
  intro l
  induction l with
  | nil => intro m k i; simp
  | cons a l ih =>
    intro m k i
    rw [List.foldl_cons, ih]
    simp only [delete, List.mem_cons]
    split_ifs <;> first | rfl | tauto

end MVDS

section Commit

variable {K V D E : Type}

/-- Gas read from the recorded output by the commit thread (executor.rs lines
257 to 261): an Abort-status transaction contributes zero gas. -/
def txnGas : ExecutionStatus (TxnOutput K V D) (Error E) → Nat
  | .Success t => t.gas_used
  | .SkipRest t => t.gas_used
  | .Abort _ => 0

/-- The commit-thread loop of `work_task_with_scope` (executor.rs lines 239
to 265), as a function of its successful iterations: while
`local_commit_idx < bound` and `local_commit_gas < limit`, commit the next
transaction and add its gas.  The not-yet-ready and failed-validation
iterations of the source loop leave the local state unchanged, so they are
dropped; the fuel starts at `bound` and never runs out before the loop
condition fails, since `idx` grows by one per iteration. -/
def commitLoopGo (statusAt : Nat → ExecutionStatus (TxnOutput K V D) (Error E))
    (limit bound : Nat) : Nat → Nat → Nat → Nat × Nat
  | 0, idx, gas => (idx, gas)
  | fuel + 1, idx, gas =>
    if idx < bound ∧ gas < limit then
      commitLoopGo statusAt limit bound fuel (idx + 1) (gas + txnGas (statusAt idx))
    else (idx, gas)

/-- The commit thread's final `(local_commit_idx, local_commit_gas)` pair,
started from index 0 and gas 0. -/
def commitLoop (statusAt : Nat → ExecutionStatus (TxnOutput K V D) (Error E))
    (limit bound : Nat) : Nat × Nat :=
  commitLoopGo statusAt limit bound bound 0 0

theorem commitLoopGo_gas (statusAt : Nat → ExecutionStatus (TxnOutput K V D) (Error E))
    (limit bound : Nat) : ∀ (fuel idx gas : Nat),
    (idx = 0 ∧ gas = 0) ∨ gas ≤ limit + txnGas (statusAt (idx - 1)) →
    (commitLoopGo statusAt limit bound fuel idx gas).2 ≤
      limit + txnGas (statusAt ((commitLoopGo statusAt limit bound fuel idx gas).1 - 1)) := by
  intro fuel
  induction fuel with
  | zero =>
    intro idx gas h
    simp only [commitLoopGo]
    rcases h with ⟨h0, hg⟩ | h
    · subst h0; subst hg; exact Nat.zero_le _
    · exact h
  | succ n ih =>
    intro idx gas h
    simp only [commitLoopGo]
    split
    · rename_i hcond
      apply ih
      right
      have : gas + txnGas (statusAt idx) ≤ limit + txnGas (statusAt idx) :=
        Nat.add_le_add_right (Nat.le_of_lt hcond.2) _
      simpa using this
    · rcases h with ⟨h0, hg⟩ | h
      · subst h0; subst hg; exact Nat.zero_le _
      · exact h

end Commit

section Equiv

variable {K V D T E : Type} [DecidableEq K]

/-- The write list published by a recorded status: the output's writes for
Success and SkipRest, nothing for Abort. -/
def writesOf : ExecutionStatus (TxnOutput K V D) E → List (K × V)
  | .Success o => o.writes
  | .SkipRest o => o.writes
  | .Abort _ => []

/-- The delta list of a status, for stating delta-freeness hypotheses. -/
def deltasOf : ExecutionStatus (TxnOutput K V D) E → List (K × D)
  | .Success o => o.deltas
  | .SkipRest o => o.deltas
  | .Abort _ => []

/-- The key/value map determined by the writes of the committed transactions
strictly below index `i`, in index order (later transactions overwrite
earlier ones, as the highest multi-version entry below the reader wins). -/
def mapUpTo (status : Nat → ExecutionStatus (TxnOutput K V D) E) (i : Nat) :
    K → Option V :=
  (List.range i).foldl (fun m j => applyWritesMap m (writesOf (status j))) (fun _ => none)

/-- The full read view of transaction `i` in a completed delta-free parallel
run: multi-version reads below `i`, falling back to base state. -/
def viewUpTo (base : K → Option V) (status : Nat → ExecutionStatus (TxnOutput K V D) E)
    (i : Nat) : K → Option V :=
  overlay base (mapUpTo status i)

/-- Ghost recursion: the sequential loop outcome computed from a status
family instead of the executor (same shape as `seqGo` and the parallel
extraction loop). -/
def specGo (status : Nat → ExecutionStatus (TxnOutput K V D) E) :
    Nat → Nat → List (TxnOutput K V D) → SeqOutcome (TxnOutput K V D) E
  | 0, _, acc => .ok acc.reverse
  | n + 1, idx, acc =>
    match status idx with
    | .Success o => specGo status n (idx + 1) (o :: acc)
    | .SkipRest o => .ok ((o :: acc).reverse)
    | .Abort e => .err (.UserError e)

theorem mapUpTo_succ (status : Nat → ExecutionStatus (TxnOutput K V D) E) (i : Nat) :
    mapUpTo (K := K) (V := V) status (i + 1) =
      applyWritesMap (mapUpTo status i) (writesOf (status i)) := by
  unfold mapUpTo
  rw [List.range_succ, List.foldl_append]
  rfl

omit [DecidableEq K] in
theorem specGo_ne_panic (status : Nat → ExecutionStatus (TxnOutput K V D) E) :
    ∀ (n idx : Nat) (acc : List (TxnOutput K V D)),
    specGo status n idx acc ≠ .panicDeltas := by
  intro n
  induction n with
  | zero => intro idx acc h; simp [specGo] at h
  | succ n ih =>
    intro idx acc h
    unfold specGo at h
    cases hs : status idx <;> rw [hs] at h
    · exact ih _ _ h
    · simp at h
    · simp at h

/-- Core refinement lemma: in a completed parallel run whose committed
statuses validate against the final multi-version state (each equals the
executor applied to its full below-index view), the sequential loop computes
exactly those statuses. -/
theorem seqGo_eq_specGo (exec : Exec K V D T E) (base : K → Option V)
    (status : Nat → ExecutionStatus (TxnOutput K V D) E)
    (hflag : ∀ v t i, exec v t i true = exec v t i false)
    (hdelta : ∀ v t i b, deltasOf (exec v t i b) = []) :
    ∀ (rest : List T) (idx : Nat) (acc : List (TxnOutput K V D)),
    (∀ j (hj : j < rest.length),
      status (idx + j) =
        exec (viewUpTo base status (idx + j)) (rest.get ⟨j, hj⟩) (idx + j) false) →
    seqGo exec base rest idx (mapUpTo status idx) acc = specGo status rest.length idx acc := by
  intro rest
  induction rest with
  | nil => intro idx acc _; simp [seqGo, specGo]
  | cons txn rest ih =>
    intro idx acc hvalid
    have h0 : status idx = exec (viewUpTo base status idx) txn idx false := by
      have := hvalid 0 (by simp)
      simpa using this
    have hexec : exec (overlay base (mapUpTo status idx)) txn idx true = status idx := by
      rw [hflag]
      exact h0.symm
    have hstepvalid : ∀ j (hj : j < rest.length),
        status (idx + 1 + j) =
          exec (viewUpTo base status (idx + 1 + j)) (rest.get ⟨j, hj⟩) (idx + 1 + j) false := by
      intro j hj
      have hj' : j + 1 < (txn :: rest).length := by simpa using Nat.succ_lt_succ hj
      have := hvalid (j + 1) hj'
      have harith : idx + (j + 1) = idx + 1 + j := by omega
      rw [harith] at this
      simpa using this
    simp only [seqGo, List.length_cons, specGo]
    rw [hexec]
    cases hs : status idx with
    | Success o =>
      have hdel : o.deltas = [] := by
        have := hdelta (viewUpTo base status idx) txn idx false
        rw [← h0, hs] at this
        simpa [deltasOf] using this
      simp only [hdel, List.length_nil, if_pos rfl]
      have hmap : applyWritesMap (mapUpTo status idx) o.writes =
          mapUpTo (K := K) (V := V) status (idx + 1) := by
        rw [mapUpTo_succ, hs]
        rfl
      rw [hmap]
      exact ih (idx + 1) (o :: acc) hstepvalid
    | SkipRest o =>
      have hdel : o.deltas = [] := by
        have := hdelta (viewUpTo base status idx) txn idx false
        rw [← h0, hs] at this
        simpa [deltasOf] using this
      simp [hdel]
    | Abort e => rfl

omit [DecidableEq K] in
/-- The parallel extraction loop over recorded statuses agrees with the ghost
recursion (an Abort recorded as `UserError` becomes the block error). -/
theorem takeOutputs_eq_specGo (status : Nat → ExecutionStatus (TxnOutput K V D) E) :
    ∀ (n idx : Nat) (acc : List (TxnOutput K V D)),
    takeOutputs (fun i => recordStatus (status i)) n idx acc =
      match specGo status n idx acc with
      | .ok outs => Except.ok outs
      | .err e => Except.error e
      | .panicDeltas => Except.ok [] := by
  intro n
  induction n with
  | zero => intro idx acc; simp [takeOutputs, specGo]
  | succ n ih =>
    intro idx acc
    simp only [takeOutputs, specGo]
    cases hs : status idx with
    | Success o => exact ih (idx + 1) (o :: acc)
    | SkipRest o => rfl
    | Abort e => rfl

/-- Running two executors that agree at `materialize_deltas = true` through
the sequential loop gives the same outcome: the loop consults the executor
only at flag `true`. -/
theorem seqGo_congr (exec exec2 : Exec K V D T E) (base : K → Option V)
    (h : ∀ v t i, exec v t i true = exec2 v t i true) :
    ∀ (rest : List T) (idx : Nat) (m : K → Option V) (acc : List (TxnOutput K V D)),
    seqGo exec base rest idx m acc = seqGo exec2 base rest idx m acc := by
  intro rest
  induction rest with
  | nil => intro idx m acc; rfl
  | cons txn rest ih =>
    intro idx m acc
    simp only [seqGo]
    rw [← h]
    cases exec (overlay base m) txn idx true with
    | Success out =>
      show (if out.deltas.length = 0 then
          seqGo exec base rest (idx + 1) (applyWritesMap m out.writes) (out :: acc)
        else SeqOutcome.panicDeltas)
        = (if out.deltas.length = 0 then
          seqGo exec2 base rest (idx + 1) (applyWritesMap m out.writes) (out :: acc)
        else SeqOutcome.panicDeltas)
      split
      · exact ih (idx + 1) _ _
      · rfl
    | SkipRest out => rfl
    | Abort e => rfl

/-- Every output the sequential loop accepts has an empty delta set — the
delta assertion panics otherwise. -/
theorem seqGo_ok_deltas (exec : Exec K V D T E) (base : K → Option V) :
    ∀ (rest : List T) (idx : Nat) (m : K → Option V)
      (acc outs : List (TxnOutput K V D)),
    (∀ o ∈ acc, o.deltas = []) →
    seqGo exec base rest idx m acc = .ok outs →
    ∀ o ∈ outs, o.deltas = [] := by
  intro rest
  induction rest with
  | nil =>
    intro idx m acc outs hacc h
    simp only [seqGo, SeqOutcome.ok.injEq] at h
    subst h
    intro o ho
    exact hacc o (List.mem_reverse.mp ho)
  | cons txn rest ih =>
    intro idx m acc outs hacc h
    simp only [seqGo] at h
    cases hE : exec (overlay base m) txn idx true <;> simp only [hE] at h
    case Success out =>
      by_cases hd : out.deltas.length = 0
      · rw [if_pos hd] at h
        refine ih (idx + 1) _ (out :: acc) outs ?_ h
        intro o ho
        rcases List.mem_cons.mp ho with rfl | ho2
        · exact List.length_eq_zero.mp hd
        · exact hacc o ho2
      · rw [if_neg hd] at h
        simp at h
    case SkipRest out =>
      by_cases hd : out.deltas.length = 0
      · rw [if_pos hd] at h
        simp only [SeqOutcome.ok.injEq] at h
        subst h
        intro o ho
        rcases List.mem_cons.mp (List.mem_reverse.mp ho) with rfl | ho2
        · exact List.length_eq_zero.mp hd
        · exact hacc o ho2
      · rw [if_neg hd] at h
        simp at h
    case Abort e => simp at h

/-- If every status below `a` is a Success and `a` holds a recorded Abort,
the extraction loop entered below `a` returns exactly that error. -/
theorem takeOutputs_first_abort {O E2 : Type}
    (statusAt : Nat → ExecutionStatus O (Error E2)) (a : Nat) (er : Error E2)
    (hsucc : ∀ j, j < a → ∃ o, statusAt j = .Success o)
    (habort : statusAt a = .Abort er) :
    ∀ (n idx : Nat) (acc : List O), idx ≤ a → a < idx + n →
    takeOutputs statusAt n idx acc = .error er := by
  intro n
  induction n with
  | zero => intro idx acc h1 h2; omega
  | succ n ih =>
    intro idx acc h1 h2
    by_cases hia : idx = a
    · subst hia
      simp only [takeOutputs, habort]
    · obtain ⟨o, ho⟩ := hsucc idx (by omega)
      simp only [takeOutputs, ho]
      exact ih (idx + 1) (o :: acc) (by omega) (by omega)

/-- If every transaction below `a` succeeds with no deltas (at any view) and
transaction `a` aborts with `e` (at any view), the sequential loop entered
below `a` returns the wrapped user error `e`. -/
theorem seqGo_first_abort (exec : Exec K V D T E) (base : K → Option V)
    (a : Nat) (e : E) :
    ∀ (rest : List T) (idx : Nat) (m : K → Option V) (acc : List (TxnOutput K V D)),
    idx ≤ a → a < idx + rest.length →
    (∀ (v : K → Option V) j (hj : j < rest.length), idx + j < a →
      ∃ o, exec v (rest.get ⟨j, hj⟩) (idx + j) true = .Success o ∧ o.deltas = []) →
    (∀ (v : K → Option V) j (hj : j < rest.length), idx + j = a →
      exec v (rest.get ⟨j, hj⟩) (idx + j) true = .Abort e) →
    seqGo exec base rest idx m acc = .err (.UserError e) := by
  intro rest
  induction rest with
  | nil => intro idx m acc h1 h2 _ _; simp at h2; omega
  | cons txn rest ih =>
    intro idx m acc h1 h2 hsucc habort
    by_cases hia : idx = a
    · have h := habort (overlay base m) 0 (by simp) (by omega)
      simp only [List.get] at h
      simp only [seqGo]
      rw [show idx + 0 = idx from rfl] at h
      rw [h]
    · obtain ⟨o, ho, hdel⟩ := hsucc (overlay base m) 0 (by simp) (by omega)
      simp only [List.get] at ho
      rw [show idx + 0 = idx from rfl] at ho
      simp only [seqGo]
      rw [ho]
      show (if o.deltas.length = 0 then
          seqGo exec base rest (idx + 1) (applyWritesMap m o.writes) (o :: acc)
        else SeqOutcome.panicDeltas) = SeqOutcome.err (Error.UserError e)
      rw [if_pos (by simp [hdel])]
      apply ih (idx + 1) _ _ (by omega)
        (by simp only [List.length_cons] at h2; omega)
      · intro v j hj hlt
        obtain ⟨o2, ho2, hdel2⟩ := hsucc v (j + 1) (by simpa using Nat.succ_lt_succ hj)
          (by omega)
        refine ⟨o2, ?_, hdel2⟩
        have harith : idx + (j + 1) = idx + 1 + j := by omega
        rw [harith] at ho2
        simpa using ho2
      · intro v j hj heq
        have h := habort v (j + 1) (by simpa using Nat.succ_lt_succ hj) (by omega)
        have harith : idx + (j + 1) = idx + 1 + j := by omega
        rw [harith] at h
        simpa using h

end Equiv

section Claims

variable {K V D T E O : Type} [DecidableEq K] [DecidableEq V] [DecidableEq D]

omit [DecidableEq V] [DecidableEq D] in
/-- Claim C1: for every block (and any concurrency level above one), the
committed outputs of `execute_transactions_parallel` are equal to the outputs
of `execute_transactions_sequential` on the same block and base state.  The
concurrent run is characterized by the spec's committed-state invariant: each
committed status equals the executor applied to the final below-index
multi-version view (spec sections 3 and 8, invariant 2); the executor is a
deterministic function of the view that ignores the `materialize_deltas` flag
and emits no deltas, and the run committed the whole block. -/
theorem parallel_committed_outputs_match_sequential
    (cl : Nat) (exec : Exec K V D T E) (base : K → Option V) (block : List T)
    (skipOut : TxnOutput K V D) (status : Nat → ExecutionStatus (TxnOutput K V D) E)
    (hcl : 1 < cl)
    (hflag : ∀ v t i, exec v t i true = exec v t i false)
    (hdelta : ∀ v t i b, deltasOf (exec v t i b) = [])
    (hvalid : ∀ j (hj : j < block.length),
      status j = exec (viewUpTo base status j) (block.get ⟨j, hj⟩) j false) :
    execute_transactions_parallel cl (fun i => recordStatus (status i))
        block.length false skipOut
      = (execute_transactions_sequential exec base block skipOut).toExcept := by
  have hseq : seqGo exec base block 0 (fun _ => none) [] =
      specGo status block.length 0 [] := by
    have h := seqGo_eq_specGo exec base status hflag hdelta block 0 []
      (by intro j hj; simpa using hvalid j hj)
    simpa [mapUpTo] using h
  unfold execute_transactions_parallel execute_transactions_sequential
  rw [if_pos hcl, takeOutputs_eq_specGo, hseq]
  cases hspec : specGo status block.length 0 [] with
  | ok outs => simp [SeqOutcome.toExcept]
  | err e => simp [SeqOutcome.toExcept]
  | panicDeltas => exact absurd hspec (specGo_ne_panic status _ _ _)

omit [DecidableEq K] in
/-- Claim C3: the per-record judgment of `validate` follows exactly the
mapping table of the spec: a re-read `Version(v, _)` is valid iff the record
holds version `v` (the value is ignored), `Resolved(val)` iff the record
resolved the same value, a `Dependency` is never valid, `Unresolved(d)` iff
the record folded the same delta, `NotFound` iff the record was a base-state
read, and a repeated `DeltaApplicationFailure` is valid. -/
theorem validate_mapping_table (r : ReadDescriptor K V D) (res : ReadRes V D) :
    validateRead r res = true ↔
      (match res with
      | .ok (.Version version _) => r.kind = .Version version
      | .ok (.Resolved value) => r.kind = .Resolved value
      | .error (.Dependency _) => False
      | .error (.Unresolved d) => r.kind = .Unresolved d
      | .error .NotFound => r.kind = .Storage
      | .error .DeltaApplicationFailure => r.kind = .DeltaApplicationFailure) := by
  obtain ⟨path, kind⟩ := r
  cases res with
  | ok o =>
    cases o <;> cases kind <;>
      simp [validateRead, ReadDescriptor.validate_version,
        ReadDescriptor.validate_resolved, eq_comm]
  | error e =>
    cases e <;> cases kind <;>
      simp [validateRead, ReadDescriptor.validate_unresolved,
        ReadDescriptor.validate_storage,
        ReadDescriptor.validate_delta_application_failure, eq_comm]

/-- Claim C8: `execute_transactions_parallel` asserts `concurrency_level > 1`
(it panics at any level below two), while `BlockExecutor::new` asserts only
`0 < concurrency_level ≤ num_cpus` — in particular `new` accepts level one,
which the parallel entry point rejects. -/
theorem concurrency_level_assertions (cl numCpus : Nat)
    (statusAt : Nat → ExecutionStatus O (Error E)) (commitIdx : Nat)
    (mayRace : Bool) (skipOut : O) :
    ((execute_transactions_parallel cl statusAt commitIdx mayRace skipOut).isSome
        ↔ 1 < cl)
    ∧ ((BlockExecutor.new cl numCpus).isSome ↔ 0 < cl ∧ cl ≤ numCpus) := by
  constructor
  · unfold execute_transactions_parallel
    split <;> simp_all
  · unfold BlockExecutor.new
    split <;> simp_all

omit [DecidableEq V] [DecidableEq D] in
/-- Claim C2 (amended): a block whose first transaction returns SkipRest
yields exactly one executed output, but the returned vector is padded with
`skip_output` fillers — to the full block length `N` on the sequential path
and to the final commit index on the parallel path — so its length still
depends on `N` (respectively on the commit index), not on the truncation. -/
theorem skiprest_single_real_output_padded :
    (∀ (exec : Exec K V D T E) (base : K → Option V) (txn0 : T) (rest : List T)
      (skipOut o : TxnOutput K V D),
      exec (overlay base (fun _ => none)) txn0 0 true = .SkipRest o →
      o.deltas = [] →
      execute_transactions_sequential exec base (txn0 :: rest) skipOut
        = .ok (o :: List.replicate rest.length skipOut))
    ∧ (∀ (statusAt : Nat → ExecutionStatus O (Error E)) (cl commitIdx : Nat)
      (skipOut o : O),
      1 < cl → statusAt 0 = .SkipRest o → 0 < commitIdx →
      execute_transactions_parallel cl statusAt commitIdx false skipOut
        = some (.ok (o :: List.replicate (commitIdx - 1) skipOut))) := by
  constructor
  · intro exec base txn0 rest skipOut o hskip hdel
    unfold execute_transactions_sequential
    simp only [seqGo]
    rw [hskip]
    show (match (if o.deltas.length = 0 then SeqOutcome.ok [o].reverse
        else SeqOutcome.panicDeltas : SeqOutcome (TxnOutput K V D) E) with
      | .ok outs => SeqOutcome.ok (resize_with outs (txn0 :: rest).length skipOut)
      | r => r) = .ok (o :: List.replicate rest.length skipOut)
    rw [if_pos (by simp [hdel])]
    simp only [List.reverse_singleton, List.length_cons]
    rw [resize_with_singleton]
  · intro statusAt cl commitIdx skipOut o hcl h0 hpos
    obtain ⟨n, rfl⟩ : ∃ n, commitIdx = n + 1 :=
      ⟨commitIdx - 1, by omega⟩
    unfold execute_transactions_parallel
    rw [if_pos hcl]
    simp only [Bool.false_eq_true, if_false, takeOutputs, h0,
      List.reverse_singleton]
    rw [resize_with_singleton]
    simp

omit [DecidableEq V] [DecidableEq D] in
/-- Claim C5 (amended): if a transaction aborts with error `e` and every
transaction before it returns Success (no earlier SkipRest or Abort) — and,
on the parallel path, the aborting transaction lies below the commit index —
then block execution returns `Err(UserError(e))` with the error unchanged; in
particular among several such aborting transactions the smallest index
determines the returned error. -/
theorem first_abort_error_propagates :
    (∀ (exec : Exec K V D T E) (base : K → Option V) (block : List T)
      (skipOut : TxnOutput K V D) (a : Nat) (e : E) (ha : a < block.length),
      (∀ (v : K → Option V) j (hj : j < a),
        ∃ o, exec v (block.get ⟨j, hj.trans ha⟩) j true = .Success o ∧ o.deltas = []) →
      (∀ (v : K → Option V), exec v (block.get ⟨a, ha⟩) a true = .Abort e) →
      execute_transactions_sequential exec base block skipOut = .err (.UserError e))
    ∧ (∀ (statusAt : Nat → ExecutionStatus O (Error E)) (cl commitIdx a : Nat)
      (skipOut : O) (e : E),
      1 < cl → a < commitIdx →
      (∀ j, j < a → ∃ o, statusAt j = .Success o) →
      statusAt a = .Abort (.UserError e) →
      execute_transactions_parallel cl statusAt commitIdx false skipOut
        = some (.error (.UserError e))) := by
  constructor
  · intro exec base block skipOut a e ha hsucc habort
    have hgo : seqGo exec base block 0 (fun _ => none) [] = .err (.UserError e) := by
      apply seqGo_first_abort exec base a e block 0 _ _ (Nat.zero_le a)
        (by omega)
      · intro v j hj hlt
        obtain ⟨o, ho, hdel⟩ := hsucc v j (by omega)
        exact ⟨o, by simpa using ho, hdel⟩
      · intro v j hj heq
        have h := habort v
        have : j = a := by omega
        subst this
        simpa using h
    unfold execute_transactions_sequential
    rw [hgo]
  · intro statusAt cl commitIdx a skipOut e hcl hlt hsucc habort
    unfold execute_transactions_parallel
    rw [if_pos hcl]
    simp only [Bool.false_eq_true, if_false]
    rw [takeOutputs_first_abort statusAt a (.UserError e) hsucc habort commitIdx 0 []
      (Nat.zero_le a) (by omega)]

omit [DecidableEq V] [DecidableEq D] in
/-- Claim C4: when recording a transaction's read set and result detects a
module read/write race, `execute` sets `commit_idx` to 0, halts the
scheduler and returns `NoTask`; `execute_transactions_parallel` then returns
`Err(ModulePathReadWrite)` instead of outputs. -/
theorem module_race_halts_and_errors
    (exec : Exec K V D T E) (view : K → Option V) (txn : T)
    (idx incarnation : Nat) (prev : List K) (reads : List (ReadDescriptor K V D))
    (m : MVMap K V D) (sched : SchedState)
    (statusAt : Nat → ExecutionStatus O (Error E)) (cl commitIdx : Nat) (skipOut : O)
    (hcl : 1 < cl) :
    (executeStep exec view txn idx incarnation prev reads true m sched).sched
        = ⟨0, true⟩
    ∧ (executeStep exec view txn idx incarnation prev reads true m sched).task
        = .NoTask
    ∧ execute_transactions_parallel cl statusAt commitIdx true skipOut
        = some (.error .ModulePathReadWrite) := by
  refine ⟨?_, ?_, ?_⟩
  · unfold executeStep
    cases exec view txn idx false <;> simp [finishStep]
  · unfold executeStep
    cases exec view txn idx false <;> simp [finishStep]
  · unfold execute_transactions_parallel
    rw [if_pos hcl]
    simp

omit [DecidableEq V] [DecidableEq D] in
/-- Claim C7: the sequential path consults the executor only at
`materialize_deltas = true` and accepts only outputs whose delta set is
empty (it panics otherwise, so a successful run contains no deltas outside
the skip fillers), while `execute` on the parallel path consults the
executor only at `materialize_deltas = false`. -/
theorem materialize_deltas_flag_usage :
    (∀ (exec exec2 : Exec K V D T E) (base : K → Option V) (block : List T)
      (skipOut : TxnOutput K V D),
      (∀ v t i, exec v t i true = exec2 v t i true) →
      execute_transactions_sequential exec base block skipOut
        = execute_transactions_sequential exec2 base block skipOut)
    ∧ (∀ (exec exec2 : Exec K V D T E) (view : K → Option V) (txn : T)
      (idx incarnation : Nat) (prev : List K)
      (reads : List (ReadDescriptor K V D)) (race : Bool)
      (m : MVMap K V D) (sched : SchedState),
      (∀ v t i, exec v t i false = exec2 v t i false) →
      executeStep exec view txn idx incarnation prev reads race m sched
        = executeStep exec2 view txn idx incarnation prev reads race m sched)
    ∧ (∀ (exec : Exec K V D T E) (base : K → Option V) (block : List T)
      (skipOut : TxnOutput K V D) (outs : List (TxnOutput K V D)),
      execute_transactions_sequential exec base block skipOut = .ok outs →
      ∃ realOuts padLen, outs = realOuts ++ List.replicate padLen skipOut
        ∧ ∀ o ∈ realOuts, o.deltas = []) := by
  refine ⟨?_, ?_, ?_⟩
  · intro exec exec2 base block skipOut h
    unfold execute_transactions_sequential
    rw [seqGo_congr exec exec2 base h]
  · intro exec exec2 view txn idx incarnation prev reads race m sched h
    unfold executeStep
    rw [h view txn idx]
  · intro exec base block skipOut outs h
    unfold execute_transactions_sequential at h
    cases hgo : seqGo exec base block 0 (fun _ => none) [] <;> simp only [hgo] at h
    case panicDeltas => simp at h
    case err e => simp at h
    case ok outs0 =>
      obtain ⟨realOuts, padLen, hdec, hsub⟩ :=
        resize_with_decomp outs0 block.length skipOut
      simp only [SeqOutcome.ok.injEq] at h
      subst h
      exact ⟨realOuts, padLen, hdec,
        fun o ho => seqGo_ok_deltas exec base block 0 (fun _ => none) [] outs0
          (by simp) hgo o (hsub o ho)⟩

omit [DecidableEq V] [DecidableEq D] in
/-- Claim C9: on every successful run the returned output vector is padded
with `skip_output()` fillers up to a fixed length — the full block length for
`execute_transactions_sequential` and the final commit index for
`execute_transactions_parallel` — even when a SkipRest transaction truncated
execution early. -/
theorem outputs_padded_to_fixed_length :
    (∀ (exec : Exec K V D T E) (base : K → Option V) (block : List T)
      (skipOut : TxnOutput K V D) (outs : List (TxnOutput K V D)),
      execute_transactions_sequential exec base block skipOut = .ok outs →
      outs.length = block.length
        ∧ ∃ realOuts padLen, outs = realOuts ++ List.replicate padLen skipOut)
    ∧ (∀ (statusAt : Nat → ExecutionStatus O (Error E)) (cl commitIdx : Nat)
      (skipOut : O) (outs : List O),
      execute_transactions_parallel cl statusAt commitIdx false skipOut
        = some (.ok outs) →
      outs.length = commitIdx
        ∧ ∃ realOuts padLen, outs = realOuts ++ List.replicate padLen skipOut) := by
  constructor
  · intro exec base block skipOut outs h
    unfold execute_transactions_sequential at h
    cases hgo : seqGo exec base block 0 (fun _ => none) [] <;> simp only [hgo] at h
    case panicDeltas => simp at h
    case err e => simp at h
    case ok outs0 =>
      simp only [SeqOutcome.ok.injEq] at h
      subst h
      obtain ⟨realOuts, padLen, hdec, _⟩ :=
        resize_with_decomp outs0 block.length skipOut
      exact ⟨resize_with_length outs0 block.length skipOut, realOuts, padLen, hdec⟩
  · intro statusAt cl commitIdx skipOut outs h
    unfold execute_transactions_parallel at h
    by_cases hcl : 1 < cl
    · rw [if_pos hcl] at h
      simp only [Bool.false_eq_true, if_false, Option.some.injEq] at h
      cases hT : takeOutputs statusAt commitIdx 0 [] with
      | error e => simp only [hT] at h; simp at h
      | ok outs0 =>
        simp only [hT, Except.ok.injEq] at h
        subst h
        obtain ⟨realOuts, padLen, hdec, _⟩ :=
          resize_with_decomp outs0 commitIdx skipOut
        exact ⟨resize_with_length outs0 commitIdx skipOut, realOuts, padLen, hdec⟩
    · rw [if_neg hcl] at h
      simp at h

omit [DecidableEq V] [DecidableEq D] in
/-- Claim C10: when the executor aborts a given (TxnIndex, incarnation)
attempt, `execute` publishes no writes and no deltas for it, deletes every
key the previous incarnation had modified (their cells at `idx` become
empty), leaves every cell at any other transaction index (and the untouched
keys at `idx`) unchanged, and records status `Abort(UserError(err))`. -/
theorem abort_publishes_nothing_and_deletes_prev
    (exec : Exec K V D T E) (view : K → Option V) (txn : T)
    (idx incarnation : Nat) (prev : List K) (reads : List (ReadDescriptor K V D))
    (m : MVMap K V D) (sched : SchedState) (k : K) (i : Nat) (err : E)
    (h : exec view txn idx false = .Abort err) :
    ((executeStep exec view txn idx incarnation prev reads false m sched).cache k i
        = if i = idx ∧ k ∈ prev then none else m k i)
    ∧ (executeStep exec view txn idx incarnation prev reads false m sched).record
        = ⟨reads, .Abort (.UserError err)⟩ := by
  constructor
  · unfold executeStep
    rw [h]
    show (finishStep idx incarnation reads (.Abort (.UserError err)) prev false m
      false sched).cache k i = _
    simp only [finishStep, Bool.false_eq_true, if_false]
    exact foldl_delete idx prev m k i
  · unfold executeStep
    rw [h]
    show (finishStep idx incarnation reads (.Abort (.UserError err)) prev false m
      false sched).record = _
    simp [finishStep]

omit [DecidableEq K] [DecidableEq V] [DecidableEq D] in
/-- Claim C6: the gas accumulated by the commit thread never exceeds the
per-block gas limit by more than the gas of the last committed transaction:
the loop admits a transaction only while the accumulated gas is below the
limit (so it stops as soon as the limit is reached), and a transaction whose
recorded status is Abort contributes zero gas. -/
theorem committed_gas_overshoot_bounded
    (statusAt : Nat → ExecutionStatus (TxnOutput K V D) (Error E)) (limit bound : Nat) :
    (commitLoop statusAt limit bound).2
      ≤ limit + txnGas (statusAt ((commitLoop statusAt limit bound).1 - 1))
    ∧ (∀ fuel idx gas, limit ≤ gas →
        commitLoopGo statusAt limit bound fuel idx gas = (idx, gas))
    ∧ (∀ err : Error E, txnGas (K := K) (V := V) (D := D) (.Abort err) = 0) := by
  refine ⟨commitLoopGo_gas statusAt limit bound bound 0 0 (Or.inl ⟨rfl, rfl⟩),
    ?_, fun _ => rfl⟩
  intro fuel idx gas h
  cases fuel with
  | zero => rfl
  | succ n =>
    unfold commitLoopGo
    rw [if_neg (by omega)]

end Claims

section Concrete

/-- Filler output used by the concrete witnesses. -/
def wSkip : TxnOutput Nat Nat Nat := ⟨[], [], 0⟩

/-- A concrete delta-free executor: transaction `t` at index `i` writes
`t` at key `i` whatever it reads. -/
def exW : Exec Nat Nat Nat Nat Nat := fun _ t i _ => .Success ⟨[(i, t)], [], 1⟩

/-- The committed statuses of a completed parallel run of `exW` over the
block `[5, 7]`. -/
def stW : Nat → ExecutionStatus (TxnOutput Nat Nat Nat) Nat :=
  fun i => .Success ⟨[(i, if i = 0 then 5 else 7)], [], 1⟩

/-- Witness for C1 at the two-transaction block `[5, 7]`. -/
theorem parallel_committed_outputs_match_sequential_witness :
    execute_transactions_parallel 2 (fun i => recordStatus (stW i)) 2 false wSkip
      = (execute_transactions_sequential exW (fun _ => none) [5, 7] wSkip).toExcept :=
  parallel_committed_outputs_match_sequential 2 exW (fun _ => none) [5, 7] wSkip stW
    (by decide) (fun _ _ _ => rfl) (fun _ _ _ _ => rfl)
    (fun j hj => by
      match j, hj with
      | 0, _ => rfl
      | 1, _ => rfl)

/-- A one-gas output with no writes and no deltas. -/
def oOne : TxnOutput Nat Nat Nat := ⟨[], [], 1⟩

/-- A concrete executor whose first transaction returns SkipRest. -/
def exC2 : Exec Nat Nat Nat Nat Nat :=
  fun _ _ i _ => if i = 0 then .SkipRest oOne else .Success oOne

/-- Recorded statuses with a SkipRest at index 0. -/
def stC2p : Nat → ExecutionStatus (TxnOutput Nat Nat Nat) (Error Nat) :=
  fun i => if i = 0 then .SkipRest oOne else .Success oOne

/-- Counterexample to C2 as stated: a two-transaction block whose first
transaction returns SkipRest yields an output vector of length two (the
executed output plus one `skip_output` filler), not exactly one output. -/
theorem skiprest_two_outputs_cex :
    execute_transactions_sequential exC2 (fun _ => none) [0, 0] wSkip
      = .ok [oOne, wSkip]
    ∧ ([oOne, wSkip] : List (TxnOutput Nat Nat Nat)).length ≠ 1 :=
  ⟨rfl, by decide⟩

/-- Witness for the amended C2 at a two-transaction sequential block and a
three-slot parallel commit range. -/
theorem skiprest_single_real_output_padded_witness :
    execute_transactions_sequential exC2 (fun _ => none) [0, 0] wSkip
      = .ok (oOne :: List.replicate 1 wSkip)
    ∧ execute_transactions_parallel 2 stC2p 3 false wSkip
      = some (.ok (oOne :: List.replicate 2 wSkip)) :=
  ⟨(skiprest_single_real_output_padded (O := TxnOutput Nat Nat Nat)).1 exC2
      (fun _ => none) 0 [0] wSkip oOne rfl rfl,
    (skiprest_single_real_output_padded (K := Nat) (V := Nat) (D := Nat)
      (T := Nat)).2 stC2p 2 3 wSkip oOne (by decide) rfl (by decide)⟩

/-- Recorded statuses with a SkipRest at index 0 and an Abort at every later
index. -/
def stC5 : Nat → ExecutionStatus (TxnOutput Nat Nat Nat) (Error Nat) :=
  fun i => if i = 0 then .SkipRest oOne else .Abort (.UserError 7)

/-- Counterexample to C5 as stated: transaction 1's recorded executor result
is Abort with user error 7, yet the block run returns Ok — the SkipRest at
index 0 stops extraction before the aborting transaction is reached, so an
aborting transaction's error is not always propagated. -/
theorem abort_after_skiprest_cex :
    stC5 1 = .Abort (.UserError 7)
    ∧ execute_transactions_parallel 2 stC5 2 false wSkip
        = some (.ok [oOne, wSkip]) :=
  ⟨rfl, rfl⟩

/-- A concrete executor that succeeds at index 0 and aborts (error 9) at
every later index. -/
def exC5s : Exec Nat Nat Nat Nat Nat :=
  fun _ _ i _ => if i = 0 then .Success oOne else .Abort 9

/-- Recorded statuses: Success at index 0, Abort(UserError 9) later. -/
def stC5p : Nat → ExecutionStatus (TxnOutput Nat Nat Nat) (Error Nat) :=
  fun i => if i = 0 then .Success oOne else .Abort (.UserError 9)

/-- Witness for the amended C5: with only Successes before it, the aborting
transaction's user error comes out of both paths unchanged. -/
theorem first_abort_error_propagates_witness :
    execute_transactions_sequential exC5s (fun _ => none) [0, 0] wSkip
      = .err (.UserError 9)
    ∧ execute_transactions_parallel 2 stC5p 2 false wSkip
      = some (.error (.UserError 9)) :=
  ⟨(first_abort_error_propagates (O := TxnOutput Nat Nat Nat)).1 exC5s
      (fun _ => none) [0, 0] wSkip 1 9 (by decide)
      (fun v j hj => by
        match j, hj with
        | 0, _ => exact ⟨oOne, rfl, rfl⟩)
      (fun v => rfl),
    (first_abort_error_propagates (K := Nat) (V := Nat) (D := Nat) (T := Nat)).2
      stC5p 2 2 1 wSkip 9 (by decide) (by decide)
      (fun j hj => by
        match j, hj with
        | 0, _ => exact ⟨oOne, rfl⟩)
      rfl⟩

/-- Committed statuses of constant gas 4 for the C6 witness. -/
def stGas : Nat → ExecutionStatus (TxnOutput Nat Nat Nat) (Error Nat) :=
  fun _ => .Success ⟨[], [], 4⟩

/-- Witness for C6: once the accumulated gas (12) has reached the limit (10)
the commit loop admits no further transaction. -/
theorem committed_gas_overshoot_bounded_witness :
    commitLoopGo stGas 10 5 3 1 12 = (1, 12) :=
  (committed_gas_overshoot_bounded stGas 10 5).2.1 3 1 12 (by decide)

/-- Witness for C4: a detected module read/write race zeroes the commit
index, halts, yields `NoTask` and makes the block return
`ModulePathReadWrite`. -/
theorem module_race_halts_and_errors_witness :
    (executeStep exW (fun _ => none) 0 0 0 [] [] true (fun _ _ => none)
        ⟨5, false⟩).sched = ⟨0, true⟩
    ∧ (executeStep exW (fun _ => none) 0 0 0 [] [] true (fun _ _ => none)
        ⟨5, false⟩).task = .NoTask
    ∧ execute_transactions_parallel 2 stC5 2 true wSkip
        = some (.error .ModulePathReadWrite) :=
  module_race_halts_and_errors exW (fun _ => none) 0 0 0 [] [] (fun _ _ => none)
    ⟨5, false⟩ stC5 2 2 wSkip (by decide)

/-- An executor succeeding at flag `true` and aborting at flag `false`. -/
def exT1 : Exec Nat Nat Nat Nat Nat :=
  fun _ _ _ b => if b then .Success oOne else .Abort 0

/-- An executor succeeding at both flags. -/
def exT2 : Exec Nat Nat Nat Nat Nat := fun _ _ _ _ => .Success oOne

/-- An executor aborting at flag `true` and succeeding at flag `false`. -/
def exF1 : Exec Nat Nat Nat Nat Nat :=
  fun _ _ _ b => if b then .Abort 0 else .Success oOne

/-- Witness for C7: the sequential run cannot tell two executors apart that
agree at flag `true`, and `execute` cannot tell two apart that agree at flag
`false`. -/
theorem materialize_deltas_flag_usage_witness :
    execute_transactions_sequential exT1 (fun _ => none) [0] wSkip
      = execute_transactions_sequential exT2 (fun _ => none) [0] wSkip
    ∧ executeStep exF1 (fun _ => none) 0 0 0 [] [] false (fun _ _ => none)
        ⟨5, false⟩
      = executeStep exT2 (fun _ => none) 0 0 0 [] [] false (fun _ _ => none)
        ⟨5, false⟩ :=
  ⟨materialize_deltas_flag_usage.1 exT1 exT2 (fun _ => none) [0] wSkip
      (fun _ _ _ => rfl),
    materialize_deltas_flag_usage.2.1 exF1 exT2 (fun _ => none) 0 0 0 [] [] false
      (fun _ _ => none) ⟨5, false⟩ (fun _ _ _ => rfl)⟩

/-- Witness for C9: the padded sequential output vector has the block's
length. -/
theorem outputs_padded_to_fixed_length_witness :
    ([oOne, wSkip] : List (TxnOutput Nat Nat Nat)).length = ([0, 0] : List Nat).length :=
  ((outputs_padded_to_fixed_length (O := TxnOutput Nat Nat Nat)).1 exC2
    (fun _ => none) [0, 0] wSkip [oOne, wSkip] rfl).1

/-- A multi-version store holding an Estimate cell at (key 0, index 2). -/
def mEst : MVMap Nat Nat Nat :=
  fun k i => if k = 0 ∧ i = 2 then some .Estimate else none

/-- An executor that always aborts with user error 3. -/
def exAbort : Exec Nat Nat Nat Nat Nat := fun _ _ _ _ => .Abort 3

/-- Witness for C10: after an aborting execution at index 2, the previously
modified key 0 is deleted at index 2 and the recorded status is the wrapped
user error. -/
theorem abort_publishes_nothing_witness :
    ((executeStep exAbort (fun _ => none) 0 2 1 [0, 1] [] false mEst
        ⟨5, false⟩).cache 0 2 = none)
    ∧ (executeStep exAbort (fun _ => none) 0 2 1 [0, 1] [] false mEst
        ⟨5, false⟩).record = ⟨[], .Abort (.UserError 3)⟩ := by
  have h := abort_publishes_nothing_and_deletes_prev exAbort (fun _ => none) 0 2 1
    [0, 1] [] mEst ⟨5, false⟩ 0 2 3 rfl
  refine ⟨?_, h.2⟩
  rw [h.1]
  decide

end Concrete

end BlockSTM
